import Mathlib

/-!
Verification of the `iref` IRI library (files `src/iri/buffer.rs` and
`src/reference/mod.rs`).

The buffers are modelled as `List Char` (the spec delegates UTF-8 and
percent-encoding validation to external collaborators, so a character is the
unit of content; offsets count characters).  Code that is present in the
repository sources is translated directly; code that the repository only
declares or calls (the grammar parser, the `IriRefBuf` owned buffer with its
setters, the component types with their comparisons, and the resolution
algorithm) is modelled from the specification, as marked on each definition.
-/

namespace Iref

/-- Modelled from the spec: the error taxonomy of section 7 together with the
variants used by `src/iri/buffer.rs` (`Error::MissingScheme`,
`Error::InvalidScheme`); the `Error` enum itself is not under `src/`. -/
inductive Error where
  | invalidScheme
  | invalidAuthority
  | invalidPath
  | invalidCharacter (offset : Nat)
  | notUtf8
  | missingScheme
deriving DecidableEq, Repr

/-- Modelled from the spec: the `AuthorityDescriptor` of section 3 — lengths of
the user-info, host and port sub-spans, relative to the authority's own start,
plus the authority's total length (`ParsedAuthority` is not under `src/`). -/
structure ParsedAuthority where
  userinfo_len : Option Nat
  host_len : Nat
  port_len : Option Nat
  len : Nat
deriving DecidableEq, Repr

namespace ParsedAuthority

/-- Offset of the host inside the authority span: after `userinfo@` if any. -/
def host_offset (a : ParsedAuthority) : Nat :=
  match a.userinfo_len with
  | some u => u + 1
  | none => 0

end ParsedAuthority

/-- Modelled from the spec: the descriptor (`ParsedIriRef`, declared in the
missing `parsing` module) of section 3: `scheme_len`, `authority`, `path_len`,
`query_len`, `fragment_len`; offsets are derived, never stored. -/
structure ParsedIriRef where
  scheme_len : Option Nat
  authority : Option ParsedAuthority
  path_len : Nat
  query_len : Option Nat
  fragment_len : Option Nat
deriving DecidableEq, Repr

namespace ParsedIriRef

/-- Length of the scheme part including its trailing `:`, `0` if absent. -/
def scheme_part (p : ParsedIriRef) : Nat :=
  match p.scheme_len with
  | some n => n + 1
  | none => 0

/-- Offset of the authority content (just after the `//`). -/
def authority_offset (p : ParsedIriRef) : Nat :=
  p.scheme_part + 2

/-- Offset of the path: after the scheme and the `//authority` part if any. -/
def path_offset (p : ParsedIriRef) : Nat :=
  p.scheme_part +
    (match p.authority with
     | some a => 2 + a.len
     | none => 0)

/-- Offset of the query content (just after the `?`). -/
def query_offset (p : ParsedIriRef) : Nat :=
  p.path_offset + p.path_len + 1

/-- Offset of the fragment content (just after the `#`). -/
def fragment_offset (p : ParsedIriRef) : Nat :=
  p.path_offset + p.path_len +
    (match p.query_len with
     | some q => q + 1
     | none => 0) + 1

/-- Total length of the reference implied by the descriptor. -/
def len (p : ParsedIriRef) : Nat :=
  p.path_offset + p.path_len +
    (match p.query_len with
     | some q => q + 1
     | none => 0) +
    (match p.fragment_len with
     | some f => f + 1
     | none => 0)

end ParsedIriRef

/-- Scheme characters after the leading ALPHA: `ALPHA | DIGIT | "+" | "-" | "."`. -/
def isSchemeTail (c : Char) : Bool :=
  c.isAlpha || c.isDigit || c == '+' || c == '-' || c == '.'

/-- Modelled from the spec: step 1 of the grammar parser (section 4.1) —
a scheme is a leading run `ALPHA (ALPHA|DIGIT|"+"|"-"|".")*` immediately
followed by `:`; returns the length of the scheme (without the colon), or
`none` if the pattern fails before a `:`. -/
def parseScheme (s : List Char) : Option Nat :=
  match s with
  | [] => none
  | c :: rest =>
    if c.isAlpha then
      match rest.drop (rest.takeWhile isSchemeTail).length with
      | ':' :: _ => some ((rest.takeWhile isSchemeTail).length + 1)
      | _ => none
    else
      none

/-- Characters that terminate an authority span: `/`, `?`, `#`. -/
def endsAuthority (c : Char) : Bool :=
  c == '/' || c == '?' || c == '#'

/-- Modelled from the spec: step 2 of the grammar parser (section 4.1) applied
to the authority span (the bytes between `//` and the first `/`, `?`, `#` or
the end): optional `userinfo@`, then a host (bracketed `[...]` literal consumed
verbatim including colons, or an unbracketed run terminated by `:` or the
end of the span), then an optional `:port` made of digits only. -/
def parseAuthority (span : List Char) : Except Error ParsedAuthority :=
  let ui : Option Nat :=
    if span.contains '@' then some (span.takeWhile (fun c => !(c == '@'))).length
    else none
  let hostPort : List Char :=
    match ui with
    | some u => span.drop (u + 1)
    | none => span
  match hostPort with
  | '[' :: inner =>
    let lit := inner.takeWhile (fun c => !(c == ']'))
    match inner.drop lit.length with
    | ']' :: rest =>
      let hostLen := lit.length + 2
      match rest with
      | [] => .ok ⟨ui, hostLen, none, span.length⟩
      | ':' :: digits =>
        if digits.all Char.isDigit then
          .ok ⟨ui, hostLen, some digits.length, span.length⟩
        else
          .error .invalidAuthority
      | _ => .error .invalidAuthority
    | _ => .error .invalidAuthority
  | _ =>
    let host := hostPort.takeWhile (fun c => !(c == ':'))
    match hostPort.drop host.length with
    | [] => .ok ⟨ui, host.length, none, span.length⟩
    | ':' :: digits =>
      if digits.all Char.isDigit then
        .ok ⟨ui, host.length, some digits.length, span.length⟩
      else
        .error .invalidAuthority
    | _ => .error .invalidAuthority

/-- Modelled from the spec: steps 3–5 of the grammar parser (section 4.1):
the path runs to the next `?`, `#` or the end and is always recorded; a `?`
opens the query which runs to `#` or the end; a `#` opens the fragment which
runs to the end. -/
def finishPathQueryFragment (sl : Option Nat) (auth : Option ParsedAuthority)
    (s : List Char) : ParsedIriRef :=
  let path := s.takeWhile (fun c => !(c == '?') && !(c == '#'))
  match s.drop path.length with
  | '?' :: afterQ =>
    let q := afterQ.takeWhile (fun c => !(c == '#'))
    match afterQ.drop q.length with
    | '#' :: frag => ⟨sl, auth, path.length, some q.length, some frag.length⟩
    | _ => ⟨sl, auth, path.length, some q.length, none⟩
  | '#' :: frag => ⟨sl, auth, path.length, none, some frag.length⟩
  | _ => ⟨sl, auth, path.length, none, none⟩

/-- Scan of the part of the reference that follows the scheme (if any):
authority detection (`//`), then path, query and fragment. -/
def ParsedIriRef.newAux (sl : Option Nat) (afterScheme : List Char) :
    Except Error ParsedIriRef :=
  match afterScheme with
  | '/' :: '/' :: rest =>
    match parseAuthority (rest.takeWhile (fun c => !(endsAuthority c))) with
    | .error e => .error e
    | .ok pa =>
      .ok (finishPathQueryFragment sl (some pa)
        (rest.drop (rest.takeWhile (fun c => !(endsAuthority c))).length))
  | _ => .ok (finishPathQueryFragment sl none afterScheme)

/-- Modelled from the spec: the grammar parser contract of section 4.1
(`ParsedIriRef::new`, declared in the missing `parsing` module): a single
left-to-right scan producing a complete descriptor or an error, never mutating
the input.  (The per-character class checks inside components, which no claim
exercises, are not modelled; the structural delimiters, the scheme grammar and
the digits-only port are.) -/
def ParsedIriRef.new (s : List Char) : Except Error ParsedIriRef :=
  match parseScheme s with
  | some n => ParsedIriRef.newAux (some n) (s.drop (n + 1))
  | none => ParsedIriRef.newAux none s

/-- Slice of `len` characters of `data` starting at `off`. -/
def slice (data : List Char) (off len : Nat) : List Char :=
  (data.drop off).take len

/-- Scheme view (`Scheme` lives in the missing `parsing` module; it wraps the
scheme's span of the buffer). -/
structure Scheme where
  data : List Char
deriving DecidableEq, Repr

/-- Authority view: the authority's span of the buffer plus its sub-descriptor
(the `Authority` type is not under `src/`). -/
structure Authority where
  data : List Char
  p : ParsedAuthority
deriving DecidableEq, Repr

namespace Authority

/-- User-info sub-view of the authority. -/
def userinfo (a : Authority) : Option (List Char) :=
  a.p.userinfo_len.map fun n => slice a.data 0 n

/-- Host sub-view of the authority. -/
def host (a : Authority) : List Char :=
  slice a.data a.p.host_offset a.p.host_len

/-- Port sub-view of the authority. -/
def port (a : Authority) : Option (List Char) :=
  a.p.port_len.map fun n => slice a.data (a.p.host_offset + a.p.host_len + 1) n

end Authority

/-- Path view. -/
structure Path where
  data : List Char
deriving DecidableEq, Repr

/-- Query view. -/
structure Query where
  data : List Char
deriving DecidableEq, Repr

/-- Fragment view. -/
structure Fragment where
  data : List Char
deriving DecidableEq, Repr

/-- `IriRef` (src/reference/mod.rs): parsing data plus the character buffer. -/
structure IriRef where
  p : ParsedIriRef
  data : List Char
deriving DecidableEq, Repr

namespace IriRef

/-- `IriRef::new` (src/reference/mod.rs): parse the buffer, keep it verbatim. -/
def new (s : List Char) : Except Error IriRef :=
  match ParsedIriRef.new s with
  | .ok p => .ok ⟨p, s⟩
  | .error e => .error e

/-- `IriRef::as_str` / `Display` (src/reference/mod.rs): the underlying buffer,
unchanged. -/
def toStr (r : IriRef) : List Char :=
  r.data

/-- `IriRef::scheme` (src/reference/mod.rs): `data[0..scheme_len]` when
`scheme_len` is present. -/
def scheme (r : IriRef) : Option Scheme :=
  match r.p.scheme_len with
  | some n => some ⟨slice r.data 0 n⟩
  | none => none

/-- `IriRef::authority` (src/reference/mod.rs):
`data[authority_offset..authority_offset+len]` when the authority is present. -/
def authority (r : IriRef) : Option Authority :=
  match r.p.authority with
  | some a => some ⟨slice r.data r.p.authority_offset a.len, a⟩
  | none => none

/-- `IriRef::path` (src/reference/mod.rs): always defined, possibly empty. -/
def path (r : IriRef) : Path :=
  ⟨slice r.data r.p.path_offset r.p.path_len⟩

/-- `IriRef::query` (src/reference/mod.rs). -/
def query (r : IriRef) : Option Query :=
  match r.p.query_len with
  | some n => some ⟨slice r.data r.p.query_offset n⟩
  | none => none

/-- `IriRef::fragment` (src/reference/mod.rs). -/
def fragment (r : IriRef) : Option Fragment :=
  match r.p.fragment_len with
  | some n => some ⟨slice r.data r.p.fragment_offset n⟩
  | none => none

end IriRef

/-- Modelled from the spec: `IriRefBuf` (the owned buffer of section 3, not
under `src/`) holds the same descriptor-plus-buffer data as `IriRef`; the
owned/borrowed distinction has no value-level content. -/
abbrev IriRefBuf := IriRef

namespace IriRefBuf

/-- Modelled from the spec: `IriRefBuf::new`, parse-and-copy. -/
def new (s : List Char) : Except Error IriRefBuf :=
  IriRef.new s

/-- Modelled from the spec: `IriRefBuf::from_vec` — parse the owned buffer; on
error the error is paired with the unchanged input buffer (section 7: mutation
failure leaves the buffer unchanged; parsing never mutates the input). -/
def from_vec (s : List Char) : Except (Error × List Char) IriRefBuf :=
  match ParsedIriRef.new s with
  | .ok p => .ok ⟨p, s⟩
  | .error e => .error (e, s)

/-- Modelled from the spec: `IriRefBuf::from_string`; on the character-level
model a `String` and a `Vec<u8>` are the same buffer. -/
def from_string (s : List Char) : Except (Error × List Char) IriRefBuf :=
  from_vec s

/-- Modelled from the spec: `IriRefBuf::into_bytes`, the underlying buffer. -/
def into_bytes (r : IriRefBuf) : List Char :=
  r.data

/-- Modelled from the spec: `IriRefBuf::default`, the empty reference (all
components absent, empty path). -/
def defaultBuf : IriRefBuf :=
  ⟨⟨none, none, 0, none, none⟩, []⟩

end IriRefBuf

/-- `IriBuf` (src/iri/buffer.rs): a wrapper around an `IriRefBuf`. -/
structure IriBuf where
  toRefBuf : IriRefBuf
deriving DecidableEq, Repr

/-- Modelled from the spec: `Iri`, the refinement of `IriRef` whose descriptor
has a present scheme (`src/iri/mod.rs` is not under `src/`; the refinement is
section 3 of the spec and is relied upon by `IriRef::resolved`). -/
structure Iri where
  toRef : IriRef
  has_scheme : toRef.p.scheme_len.isSome = true

/-- Modelled from the spec: `Iri::new` — parse, then check the scheme is
present; an `Iri`-typed value constructed from data lacking a scheme fails
with `MissingScheme` (section 7). -/
def Iri.new (s : List Char) : Except Error Iri :=
  match IriRef.new s with
  | .ok r =>
    if h : r.p.scheme_len.isSome then .ok ⟨r, h⟩ else .error .missingScheme
  | .error e => .error e

namespace IriBuf

/-- `IriBuf::as_iri_ref` (src/iri/buffer.rs). -/
def as_iri_ref (b : IriBuf) : IriRef :=
  b.toRefBuf

/-- `IriBuf::new` (src/iri/buffer.rs): parse as a reference, then check that
the scheme accessor returns `Some`. -/
def new (s : List Char) : Except Error IriBuf :=
  match IriRefBuf.new s with
  | .ok iri_ref =>
    if (iri_ref.scheme).isSome then .ok ⟨iri_ref⟩ else .error .missingScheme
  | .error e => .error e

/-- `IriBuf::from_vec` (src/iri/buffer.rs): on a missing scheme the error is
paired with the buffer recovered by `into_bytes`. -/
def from_vec (s : List Char) : Except (Error × List Char) IriBuf :=
  match IriRefBuf.from_vec s with
  | .ok iri_ref =>
    if (iri_ref.scheme).isSome then .ok ⟨iri_ref⟩
    else .error (.missingScheme, iri_ref.into_bytes)
  | .error e => .error e

/-- `IriBuf::from_string` (src/iri/buffer.rs): as `from_vec`; the unsafe
re-assembly of the `String` from the raw parts of the byte vector is the
identity on the underlying characters. -/
def from_string (s : List Char) : Except (Error × List Char) IriBuf :=
  match IriRefBuf.from_string s with
  | .ok iri_ref =>
    if (iri_ref.scheme).isSome then .ok ⟨iri_ref⟩
    else .error (.missingScheme, iri_ref.into_bytes)
  | .error e => .error e

/-- `TryFrom<IriRef> for IriBuf` (src/iri/buffer.rs, lines 300–311): checks
`iri_ref.p.scheme_len.is_some()` on the existing descriptor; the error is
`Error::InvalidScheme`. -/
def tryFromIriRef (iri_ref : IriRef) : Except Error IriBuf :=
  if iri_ref.p.scheme_len.isSome then .ok ⟨iri_ref⟩ else .error .invalidScheme

/-- `TryFrom<IriRefBuf> for IriBuf` (src/iri/buffer.rs, lines 313–324): checks
`iri_ref.p.scheme_len.is_some()`; the error returns the `IriRefBuf` itself. -/
def tryFromIriRefBuf (iri_ref : IriRefBuf) : Except IriRefBuf IriBuf :=
  if iri_ref.p.scheme_len.isSome then .ok ⟨iri_ref⟩ else .error iri_ref

/-- `IriBuf::scheme` (src/iri/buffer.rs): `self.0.scheme().unwrap()`; modelled
without the unwrap, as the underlying optional accessor — `schemeOpt = none`
is exactly the panic case. -/
def schemeOpt (b : IriBuf) : Option Scheme :=
  b.toRefBuf.scheme

/-- `Display for IriBuf` (src/iri/buffer.rs): the underlying buffer. -/
def toStr (b : IriBuf) : List Char :=
  b.toRefBuf.data

end IriBuf

/-- Modelled from the spec: the splice primitive of section 4.3 — replace
`data[start..start+len]` with `repl`.  The descriptor stores lengths only, so
a setter updates just its own component's field (offsets are derived). -/
def splice (data : List Char) (start len : Nat) (repl : List Char) : List Char :=
  data.take start ++ repl ++ data.drop (start + len)

namespace IriRefBuf

/-- Modelled from the spec: `set_scheme` (section 4.3) — replace the
`scheme:` span at offset 0 (insert it when absent, remove it on `None`). -/
def set_scheme (r : IriRefBuf) (s : Option Scheme) : IriRefBuf :=
  ⟨{ r.p with scheme_len := s.map fun sc => sc.data.length },
   splice r.data 0 r.p.scheme_part
     (match s with
      | some sc => sc.data ++ [':']
      | none => [])⟩

/-- Modelled from the spec: `set_authority` (section 4.3) — replace the
`//authority` span after the scheme part.  (The spec's open question on the
path-ambiguity policy after removal is left unmodelled; no claim exercises
it.) -/
def set_authority (r : IriRefBuf) (a : Option Authority) : IriRefBuf :=
  ⟨{ r.p with authority := a.map Authority.p },
   splice r.data r.p.scheme_part
     (match r.p.authority with
      | some old => 2 + old.len
      | none => 0)
     (match a with
      | some auth => '/' :: '/' :: auth.data
      | none => [])⟩

/-- Modelled from the spec: `set_path` (section 4.3) — replace the path span. -/
def set_path (r : IriRefBuf) (pth : Path) : IriRefBuf :=
  ⟨{ r.p with path_len := pth.data.length },
   splice r.data r.p.path_offset r.p.path_len pth.data⟩

/-- Modelled from the spec: `set_query` (section 4.3) — replace the `?query`
span (delimiter included); `None` removes the delimiter too, `Some(empty)`
keeps it. -/
def set_query (r : IriRefBuf) (q : Option Query) : IriRefBuf :=
  ⟨{ r.p with query_len := q.map fun qq => qq.data.length },
   splice r.data (r.p.path_offset + r.p.path_len)
     (match r.p.query_len with
      | some n => n + 1
      | none => 0)
     (match q with
      | some qq => '?' :: qq.data
      | none => [])⟩

/-- Modelled from the spec: `set_fragment` (section 4.3) — replace the
`#fragment` span (delimiter included). -/
def set_fragment (r : IriRefBuf) (f : Option Fragment) : IriRefBuf :=
  ⟨{ r.p with fragment_len := f.map fun ff => ff.data.length },
   splice r.data
     (r.p.path_offset + r.p.path_len +
       (match r.p.query_len with
        | some n => n + 1
        | none => 0))
     (match r.p.fragment_len with
      | some n => n + 1
      | none => 0)
     (match f with
      | some ff => '#' :: ff.data
      | none => [])⟩

end IriRefBuf

namespace IriBuf

/-- `IriBuf::from_scheme` (src/iri/buffer.rs): default reference, then
`set_scheme(Some(scheme))`. -/
def from_scheme (scheme : Scheme) : IriBuf :=
  ⟨IriRefBuf.set_scheme IriRefBuf.defaultBuf (some scheme)⟩

/-- `IriBuf::set_scheme` (src/iri/buffer.rs): a mandatory, non-optional
scheme, delegated as `Some` to the underlying reference. -/
def set_scheme (b : IriBuf) (s : Scheme) : IriBuf :=
  ⟨IriRefBuf.set_scheme b.toRefBuf (some s)⟩

/-- `IriBuf::set_authority` (src/iri/buffer.rs). -/
def set_authority (b : IriBuf) (a : Option Authority) : IriBuf :=
  ⟨IriRefBuf.set_authority b.toRefBuf a⟩

/-- `IriBuf::set_path` (src/iri/buffer.rs). -/
def set_path (b : IriBuf) (pth : Path) : IriBuf :=
  ⟨IriRefBuf.set_path b.toRefBuf pth⟩

/-- `IriBuf::set_query` (src/iri/buffer.rs). -/
def set_query (b : IriBuf) (q : Option Query) : IriBuf :=
  ⟨IriRefBuf.set_query b.toRefBuf q⟩

/-- `IriBuf::set_fragment` (src/iri/buffer.rs). -/
def set_fragment (b : IriBuf) (f : Option Fragment) : IriBuf :=
  ⟨IriRefBuf.set_fragment b.toRefBuf f⟩

end IriBuf

/-- Modelled from the spec: every `IriBuf` observable through the public API —
produced by a checked constructor (`new`, `from_vec`, `from_string`,
`from_scheme`, the two `TryFrom`s) or by mutating such a value through the
setters. -/
inductive ReachableIriBuf : IriBuf → Prop where
  | of_new (s : List Char) (b : IriBuf) : IriBuf.new s = .ok b → ReachableIriBuf b
  | of_from_vec (s : List Char) (b : IriBuf) :
      IriBuf.from_vec s = .ok b → ReachableIriBuf b
  | of_from_string (s : List Char) (b : IriBuf) :
      IriBuf.from_string s = .ok b → ReachableIriBuf b
  | of_from_scheme (sc : Scheme) : ReachableIriBuf (IriBuf.from_scheme sc)
  | of_try_from_ref (r : IriRef) (b : IriBuf) :
      IriBuf.tryFromIriRef r = .ok b → ReachableIriBuf b
  | of_try_from_buf (r : IriRefBuf) (b : IriBuf) :
      IriBuf.tryFromIriRefBuf r = .ok b → ReachableIriBuf b
  | of_set_scheme (b : IriBuf) (s : Scheme) :
      ReachableIriBuf b → ReachableIriBuf (b.set_scheme s)
  | of_set_authority (b : IriBuf) (a : Option Authority) :
      ReachableIriBuf b → ReachableIriBuf (b.set_authority a)
  | of_set_path (b : IriBuf) (pth : Path) :
      ReachableIriBuf b → ReachableIriBuf (b.set_path pth)
  | of_set_query (b : IriBuf) (q : Option Query) :
      ReachableIriBuf b → ReachableIriBuf (b.set_query q)
  | of_set_fragment (b : IriBuf) (f : Option Fragment) :
      ReachableIriBuf b → ReachableIriBuf (b.set_fragment f)

/-- Modelled from the spec: the `remove_dot_segments` output-stack step that
pops the last segment of the output buffer, with its preceding `/` (RFC 3986
section 5.2.4, step 2C). -/
def popSegment (out : List Char) : List Char :=
  match out.reverse.dropWhile (fun c => !(c == '/')) with
  | '/' :: t => t.reverse
  | _ => []

/-- Modelled from the spec: the RFC 3986 section 5.2.4 state machine of
section 4.4, one input/output buffer pass; the fuel argument only bounds the
iteration (each step strictly shortens the input, so `input.length` steps
always suffice). -/
def rdsAux : Nat → List Char → List Char → List Char
  | 0, _, out => out
  | fuel + 1, input, out =>
    match input with
    | [] => out
    | '.' :: '.' :: '/' :: rest => rdsAux fuel rest out
    | '.' :: '/' :: rest => rdsAux fuel rest out
    | '/' :: '.' :: '/' :: rest => rdsAux fuel ('/' :: rest) out
    | ['/', '.'] => rdsAux fuel ['/'] out
    | '/' :: '.' :: '.' :: '/' :: rest => rdsAux fuel ('/' :: rest) (popSegment out)
    | ['/', '.', '.'] => rdsAux fuel ['/'] (popSegment out)
    | ['.'] => out
    | ['.', '.'] => out
    | '/' :: rest =>
      rdsAux fuel (rest.drop (rest.takeWhile (fun c => !(c == '/'))).length)
        (out ++ '/' :: rest.takeWhile (fun c => !(c == '/')))
    | c :: rest =>
      rdsAux fuel (rest.drop (rest.takeWhile (fun c => !(c == '/'))).length)
        (out ++ c :: rest.takeWhile (fun c => !(c == '/')))

/-- Modelled from the spec: `remove_dot_segments` (section 4.4). -/
def removeDotSegments (input : List Char) : List Char :=
  rdsAux input.length input []

/-- All of the base path up to and including its last `/` (all but the last
segment); empty if the base path holds no `/`. -/
def dropLastSegment (p : List Char) : List Char :=
  (p.reverse.dropWhile (fun c => !(c == '/'))).reverse

/-- Modelled from the spec: `merge` (section 4.4, RFC 3986 section 5.3): a
base with an authority and an empty path contributes a single `/`; otherwise
all but the last segment of the base path, then the reference path. -/
def mergePaths (basePath : List Char) (baseHasAuth : Bool) (refPath : List Char) :
    List Char :=
  if baseHasAuth && basePath.isEmpty then '/' :: refPath
  else dropLastSegment basePath ++ refPath

/-- Reassemble a reference from its components, with their delimiters
(`scheme:`, `//authority`, `?query`, `#fragment`). -/
def render (scheme : Option (List Char)) (auth : Option (List Char))
    (path : List Char) (query frag : Option (List Char)) : List Char :=
  (match scheme with
   | some sc => sc ++ [':']
   | none => []) ++
  (match auth with
   | some a => '/' :: '/' :: a
   | none => []) ++
  path ++
  (match query with
   | some q => '?' :: q
   | none => []) ++
  (match frag with
   | some f => '#' :: f
   | none => [])

/-- A reference built from explicit components: rendered buffer plus the
descriptor implied by the component lengths. -/
def buildRef (scheme : Option (List Char)) (auth : Option Authority)
    (path : List Char) (query frag : Option (List Char)) : IriRefBuf :=
  ⟨⟨scheme.map List.length, auth.map Authority.p, path.length,
    query.map List.length, frag.map List.length⟩,
   render scheme (auth.map Authority.data) path query frag⟩

/-- Modelled from the spec: the resolution algorithm of section 4.4
(`IriRefBuf::resolve`, not under `src/`): a reference carrying its own scheme
is returned unchanged (as a re-validated copy); otherwise the scheme comes
from the base, the authority from the reference if present else the base, the
path by the empty/absolute/merge case split with dot-segment removal, the
query from the reference if present (else the base when the reference path is
empty and the reference has no authority), and the fragment always from the
reference. -/
def IriRefBuf.resolve (r : IriRefBuf) (base : Iri) : IriRefBuf :=
  if r.p.scheme_len.isSome then r
  else
    match r.authority with
    | some ra =>
      buildRef ((base.toRef.scheme).map Scheme.data) (some ra)
        (removeDotSegments r.path.data) ((r.query).map Query.data)
        ((r.fragment).map Fragment.data)
    | none =>
      if r.p.path_len = 0 then
        buildRef ((base.toRef.scheme).map Scheme.data) base.toRef.authority
          base.toRef.path.data
          (match r.query with
           | some q => some q.data
           | none => (base.toRef.query).map Query.data)
          ((r.fragment).map Fragment.data)
      else if r.path.data.head? = some '/' then
        buildRef ((base.toRef.scheme).map Scheme.data) base.toRef.authority
          (removeDotSegments r.path.data) ((r.query).map Query.data)
          ((r.fragment).map Fragment.data)
      else
        buildRef ((base.toRef.scheme).map Scheme.data) base.toRef.authority
          (removeDotSegments
            (mergePaths base.toRef.path.data (base.toRef.p.authority).isSome
              r.path.data))
          ((r.query).map Query.data)
          ((r.fragment).map Fragment.data)

/-- `IriRef::resolved` (src/reference/mod.rs): copy into an owned buffer,
resolve in place against the base, convert to an `IriBuf` and unwrap; the
unwrap is modelled by `Option` (`none` is the panic). -/
def IriRef.resolved (r : IriRef) (base : Iri) : Option IriBuf :=
  (IriBuf.tryFromIriRefBuf (IriRefBuf.resolve r base)).toOption

/-- Resolution at the textual level: parse the reference and the base, resolve
and display. -/
def resolveStr (rs bs : List Char) : Option (List Char) :=
  match IriRef.new rs, Iri.new bs with
  | .ok r, .ok b => (IriRef.resolved r b).map IriBuf.toStr
  | _, _ => none

/-- Three-way comparison of naturals. -/
def cmpNat (a b : Nat) : Ordering :=
  if a < b then .lt else if b < a then .gt else .eq

/-- Three-way comparison of characters, by code point. -/
def cmpChar (a b : Char) : Ordering :=
  cmpNat a.toNat b.toNat

/-- Lexicographic three-way comparison of lists from an element comparison. -/
def cmpList (cmp : α → α → Ordering) : List α → List α → Ordering
  | [], [] => .eq
  | [], _ :: _ => .lt
  | _ :: _, [] => .gt
  | x :: xs, y :: ys => (cmp x y).then (cmpList cmp xs ys)

/-- Three-way comparison of options: `none` orders before `some`. -/
def cmpOpt (cmp : α → α → Ordering) : Option α → Option α → Ordering
  | none, none => .eq
  | none, some _ => .lt
  | some _, none => .gt
  | some a, some b => cmp a b

/-- Equality of options lifted from an element equality. -/
def optBeq (beq : α → α → Bool) : Option α → Option α → Bool
  | none, none => true
  | some a, some b => beq a b
  | _, _ => false

/-- ASCII-lowercased copy of a component span, for the case-insensitive
comparisons. -/
def lowerList (l : List Char) : List Char :=
  l.map Char.toLower

/-- Modelled from the spec: scheme equality is case-insensitive
(section 4.5; `PartialEq for Scheme` is not under `src/`). -/
def Scheme.beq (a b : Scheme) : Bool :=
  lowerList a.data == lowerList b.data

/-- Modelled from the spec: scheme ordering, case-insensitive
(`Ord for Scheme` is not under `src/`). -/
def Scheme.cmp (a b : Scheme) : Ordering :=
  cmpList cmpChar (lowerList a.data) (lowerList b.data)

/-- Modelled from the spec: authority equality — exact user-info,
case-insensitive host, exact port (section 4.5). -/
def Authority.beq (a b : Authority) : Bool :=
  optBeq BEq.beq a.userinfo b.userinfo &&
  (lowerList a.host == lowerList b.host) &&
  optBeq BEq.beq a.port b.port

/-- Modelled from the spec: authority ordering — user-info, then host
(case-insensitive), then port. -/
def Authority.cmp (a b : Authority) : Ordering :=
  (cmpOpt (cmpList cmpChar) a.userinfo b.userinfo).then
    ((cmpList cmpChar (lowerList a.host) (lowerList b.host)).then
      (cmpOpt (cmpList cmpChar) a.port b.port))

/-- Modelled from the spec: path equality is exact (section 4.5). -/
def Path.beq (a b : Path) : Bool :=
  a.data == b.data

/-- Modelled from the spec: path ordering is exact. -/
def Path.cmp (a b : Path) : Ordering :=
  cmpList cmpChar a.data b.data

/-- Modelled from the spec: query equality is exact (section 4.5). -/
def Query.beq (a b : Query) : Bool :=
  a.data == b.data

/-- Modelled from the spec: query ordering is exact. -/
def Query.cmp (a b : Query) : Ordering :=
  cmpList cmpChar a.data b.data

/-- Modelled from the spec: fragment equality is exact (section 4.5). -/
def Fragment.beq (a b : Fragment) : Bool :=
  a.data == b.data

/-- Modelled from the spec: fragment ordering is exact. -/
def Fragment.cmp (a b : Fragment) : Ordering :=
  cmpList cmpChar a.data b.data

/-- `PartialEq for IriRef` (src/reference/mod.rs, lines 248–252): the
conjunction of the component equalities (written there in the order scheme,
fragment, authority, path, query). -/
def IriRef.beq (a b : IriRef) : Bool :=
  optBeq Scheme.beq a.scheme b.scheme &&
  optBeq Fragment.beq a.fragment b.fragment &&
  optBeq Authority.beq a.authority b.authority &&
  Path.beq a.path b.path &&
  optBeq Query.beq a.query b.query

/-- `Ord for IriRef` (src/reference/mod.rs, lines 290–310): compare scheme,
then authority, then path, then query, then fragment; each `if` tests the
component equality, the `else` compares the component. -/
def IriRef.cmp (a b : IriRef) : Ordering :=
  if optBeq Scheme.beq a.scheme b.scheme then
    if optBeq Authority.beq a.authority b.authority then
      if Path.beq a.path b.path then
        if optBeq Query.beq a.query b.query then
          cmpOpt Fragment.cmp a.fragment b.fragment
        else
          cmpOpt Query.cmp a.query b.query
      else
        Path.cmp a.path b.path
    else
      cmpOpt Authority.cmp a.authority b.authority
  else
    cmpOpt Scheme.cmp a.scheme b.scheme

/-- The laws making a three-way comparison a total preorder compatible with
its own equivalence: `swap` antisymmetry, transitivity of `lt`, and
congruence of comparison along its `eq` kernel. -/
structure CmpLaws (cmp : α → α → Ordering) : Prop where
  swap_eq : ∀ a b, (cmp a b).swap = cmp b a
  lt_trans : ∀ a b c, cmp a b = .lt → cmp b c = .lt → cmp a c = .lt
  eq_left : ∀ a b c, cmp a b = .eq → cmp a c = cmp b c

/-- Concrete sample: the absolute reference `a:`. -/
def sampleAbs : List Char :=
  'a' :: ':' :: []

/-- The parsing of `sampleAbs`. -/
def sampleAbsRef : IriRef :=
  ⟨⟨some 1, none, 0, none, none⟩, sampleAbs⟩

/-- Concrete sample: the relative reference `/a` (no scheme). -/
def sampleRel : List Char :=
  '/' :: 'a' :: []

/-- The parsing of `sampleRel`. -/
def sampleRelRef : IriRef :=
  ⟨⟨none, none, 2, none, none⟩, sampleRel⟩

/-- Concrete sample: the IRI `x:`. -/
def sampleIri : Iri :=
  ⟨⟨⟨some 1, none, 0, none, none⟩, 'x' :: ':' :: []⟩, rfl⟩

/-! ### Helper lemmas about the parser -/

theorem finish_scheme (sl : Option Nat) (auth : Option ParsedAuthority)
    (s : List Char) : (finishPathQueryFragment sl auth s).scheme_len = sl := by
  simp only [finishPathQueryFragment]
  split
  · split <;> rfl
  · rfl
  · rfl

theorem newAux_scheme (sl : Option Nat) (t : List Char) (p : ParsedIriRef)
    (h : ParsedIriRef.newAux sl t = .ok p) : p.scheme_len = sl := by
  unfold ParsedIriRef.newAux at h
  split at h
  · split at h
    · exact absurd h (by simp)
    · rw [Except.ok.injEq] at h
      subst h
      exact finish_scheme ..
  · rw [Except.ok.injEq] at h
    subst h
    exact finish_scheme ..

theorem new_scheme (s : List Char) (p : ParsedIriRef)
    (h : ParsedIriRef.new s = .ok p) : p.scheme_len = parseScheme s := by
  unfold ParsedIriRef.new at h
  split at h
  · rename_i n heq
    rw [newAux_scheme _ _ _ h, heq]
  · rename_i heq
    rw [newAux_scheme _ _ _ h, heq]

theorem parseScheme_pos (s : List Char) (n : Nat) (h : parseScheme s = some n) :
    0 < n := by
  cases s with
  | nil => simp [parseScheme] at h
  | cons c rest =>
    simp only [parseScheme] at h
    by_cases hc : c.isAlpha
    · rw [if_pos hc] at h
      split at h
      · rw [Option.some.injEq] at h
        omega
      · exact absurd h (by simp)
    · rw [if_neg hc] at h
      exact absurd h (by simp)

theorem iriRefNew_ok (s : List Char) (r : IriRef) (h : IriRef.new s = .ok r) :
    ParsedIriRef.new s = .ok r.p ∧ r.data = s := by
  unfold IriRef.new at h
  split at h
  · rename_i p heq
    rw [Except.ok.injEq] at h
    subst h
    exact ⟨heq, rfl⟩
  · exact absurd h (by simp)

theorem refBuf_from_vec_ok (s : List Char) (r : IriRefBuf)
    (h : IriRefBuf.from_vec s = .ok r) : r.data = s := by
  unfold IriRefBuf.from_vec at h
  split at h
  · rw [Except.ok.injEq] at h
    subst h
    rfl
  · exact absurd h (by simp)

theorem refBuf_from_vec_err (s : List Char) (pr : Error × List Char)
    (h : IriRefBuf.from_vec s = .error pr) : pr.2 = s := by
  unfold IriRefBuf.from_vec at h
  split at h
  · exact absurd h (by simp)
  · rw [Except.error.injEq] at h
    subst h
    rfl

theorem scheme_isSome (r : IriRef) :
    (r.scheme).isSome = (r.p.scheme_len).isSome := by
  unfold IriRef.scheme
  cases r.p.scheme_len <;> rfl

/-! ### Claim theorems -/

/-- C6: for every valid textual input `s` that parses successfully and
undergoes no mutation, the `Display` output of the parsed value is
character-for-character equal to `s`. -/
theorem display_roundtrip (s : List Char) (r : IriRef)
    (h : IriRef.new s = .ok r) : r.toStr = s :=
  (iriRefNew_ok s r h).2

theorem display_roundtrip_witness : IriRef.toStr sampleAbsRef = sampleAbs :=
  display_roundtrip sampleAbs sampleAbsRef (by rfl)

/-- C7: the `authority`, `query` and `fragment` accessors return `none`
exactly when the corresponding descriptor field is absent, and return `some`
even when the component's length is zero; `path` always returns a (possibly
empty) path. -/
theorem accessor_absence (r : IriRef) :
    ((r.authority).isSome = (r.p.authority).isSome)
  ∧ ((r.query).isSome = (r.p.query_len).isSome)
  ∧ ((r.fragment).isSome = (r.p.fragment_len).isSome)
  ∧ (r.p.query_len = some 0 → r.query = some ⟨[]⟩)
  ∧ (r.p.fragment_len = some 0 → r.fragment = some ⟨[]⟩)
  ∧ (∀ a, r.p.authority = some a → a.len = 0 → r.authority = some ⟨[], a⟩)
  ∧ r.path = ⟨slice r.data r.p.path_offset r.p.path_len⟩ := by
  refine ⟨?_, ?_, ?_, ?_, ?_, ?_, rfl⟩
  · cases h : r.p.authority <;> simp [IriRef.authority, h]
  · cases h : r.p.query_len <;> simp [IriRef.query, h]
  · cases h : r.p.fragment_len <;> simp [IriRef.fragment, h]
  · intro h
    simp [IriRef.query, h, slice]
  · intro h
    simp [IriRef.fragment, h, slice]
  · intro a h hlen
    simp [IriRef.authority, h, hlen, slice]

theorem accessor_absence_witness :
    IriRef.query ⟨⟨none, none, 0, some 0, none⟩, '?' :: []⟩ = some ⟨[]⟩ :=
  (accessor_absence ⟨⟨none, none, 0, some 0, none⟩, '?' :: []⟩).2.2.2.1 rfl

/-- C8: when `IriBuf::from_vec` or `IriBuf::from_string` fails, the failure is
a returned value pairing the error with the caller's buffer, and that buffer
is character-for-character identical to the input. -/
theorem failure_returns_input (s : List Char) :
    (∀ e out, IriBuf.from_vec s = .error (e, out) → out = s)
  ∧ (∀ e out, IriBuf.from_string s = .error (e, out) → out = s) := by
  have core : ∀ e out, IriBuf.from_vec s = .error (e, out) → out = s := by
    intro e out h
    unfold IriBuf.from_vec at h
    split at h
    · rename_i iri_ref heq
      split at h
      · exact absurd h (by simp)
      · rw [Except.error.injEq, Prod.mk.injEq] at h
        rw [← h.2]
        exact refBuf_from_vec_ok s iri_ref heq
    · rename_i pr heq
      rw [Except.error.injEq] at h
      subst h
      exact refBuf_from_vec_err s (e, out) heq
  exact ⟨core, fun e out h => core e out h⟩

theorem failure_returns_input_witness :
    IriBuf.from_vec sampleRel = .error (.missingScheme, sampleRel)
  ∧ sampleRel = sampleRel :=
  ⟨by rfl, (failure_returns_input sampleRel).1 .missingScheme sampleRel (by rfl)⟩

/-- C3: against the base `http://a/b/c/d;p?q`, the five RFC 3986 section 5.4
worked examples resolve exactly as listed. -/
theorem rfc_worked_examples :
    resolveStr "g;x=1/../y".toList "http://a/b/c/d;p?q".toList
      = some "http://a/b/c/y".toList
  ∧ resolveStr "g".toList "http://a/b/c/d;p?q".toList
      = some "http://a/b/c/g".toList
  ∧ resolveStr "../../../g".toList "http://a/b/c/d;p?q".toList
      = some "http://a/g".toList
  ∧ resolveStr "".toList "http://a/b/c/d;p?q".toList
      = some "http://a/b/c/d;p?q".toList
  ∧ resolveStr "#s".toList "http://a/b/c/d;p?q".toList
      = some "http://a/b/c/d;p?q#s".toList := by
  refine ⟨by decide, by decide, by decide, by decide, by decide⟩

/-- C1: converting a successfully parsed IRI-reference to an `Iri` (by
`IriBuf::new`, `from_vec`, `from_string` or the two `TryFrom`s) succeeds if
and only if the parsed descriptor's scheme is present and non-empty, and the
`TryFrom` conversions depend on the descriptor only (same descriptor, same
outcome — no re-parse of the buffer). -/
theorem iri_refinement (s : List Char) (r : IriRef) (h : IriRef.new s = .ok r) :
    ((∃ b, IriBuf.tryFromIriRef r = .ok b)
       ↔ ∃ n, r.p.scheme_len = some n ∧ 0 < n)
  ∧ ((∃ b, IriBuf.tryFromIriRefBuf r = .ok b)
       ↔ ∃ n, r.p.scheme_len = some n ∧ 0 < n)
  ∧ ((∃ b, IriBuf.new s = .ok b) ↔ ∃ n, r.p.scheme_len = some n ∧ 0 < n)
  ∧ ((∃ b, IriBuf.from_vec s = .ok b) ↔ ∃ n, r.p.scheme_len = some n ∧ 0 < n)
  ∧ ((∃ b, IriBuf.from_string s = .ok b)
       ↔ ∃ n, r.p.scheme_len = some n ∧ 0 < n)
  ∧ (∀ r₂ : IriRef, r₂.p = r.p →
      ((∃ b, IriBuf.tryFromIriRef r₂ = .ok b)
        ↔ ∃ b, IriBuf.tryFromIriRef r = .ok b)) := by
  obtain ⟨hp, hd⟩ := iriRefNew_ok s r h
  have hpos : ∀ n, r.p.scheme_len = some n → 0 < n := fun n hn =>
    parseScheme_pos s n ((new_scheme s r.p hp) ▸ hn)
  have key : (r.p.scheme_len).isSome = true
      ↔ ∃ n, r.p.scheme_len = some n ∧ 0 < n := by
    constructor
    · intro hh
      obtain ⟨n, hn⟩ := Option.isSome_iff_exists.mp hh
      exact ⟨n, hn, hpos n hn⟩
    · rintro ⟨n, hn, -⟩
      simp [hn]
  have t1 : (∃ b, IriBuf.tryFromIriRef r = .ok b)
      ↔ (r.p.scheme_len).isSome = true := by
    unfold IriBuf.tryFromIriRef
    by_cases hh : (r.p.scheme_len).isSome <;> simp [hh]
  have t2 : (∃ b, IriBuf.tryFromIriRefBuf r = .ok b)
      ↔ (r.p.scheme_len).isSome = true := by
    unfold IriBuf.tryFromIriRefBuf
    by_cases hh : (r.p.scheme_len).isSome <;> simp [hh]
  have t3 : (∃ b, IriBuf.new s = .ok b)
      ↔ (r.p.scheme_len).isSome = true := by
    unfold IriBuf.new IriRefBuf.new
    rw [h]
    by_cases hh : (r.p.scheme_len).isSome <;>
      simp [scheme_isSome, hh]
  have hv : IriRefBuf.from_vec s = .ok r := by
    unfold IriRefBuf.from_vec
    rw [hp]
    cases r
    simp at hd
    subst hd
    rfl
  have t4 : (∃ b, IriBuf.from_vec s = .ok b)
      ↔ (r.p.scheme_len).isSome = true := by
    unfold IriBuf.from_vec
    rw [hv]
    by_cases hh : (r.p.scheme_len).isSome <;>
      simp [scheme_isSome, hh]
  have t5 : (∃ b, IriBuf.from_string s = .ok b)
      ↔ (r.p.scheme_len).isSome = true := by
    unfold IriBuf.from_string IriRefBuf.from_string
    rw [hv]
    by_cases hh : (r.p.scheme_len).isSome <;>
      simp [scheme_isSome, hh]
  refine ⟨t1.trans key, t2.trans key, t3.trans key, t4.trans key,
    t5.trans key, ?_⟩
  intro r₂ h₂
  have t6 : (∃ b, IriBuf.tryFromIriRef r₂ = .ok b)
      ↔ (r₂.p.scheme_len).isSome = true := by
    unfold IriBuf.tryFromIriRef
    by_cases hh : (r₂.p.scheme_len).isSome <;> simp [hh]
  rw [t6, t1, h₂]

theorem iri_refinement_witness :
    ((∃ b, IriBuf.tryFromIriRef sampleAbsRef = .ok b)
       ↔ ∃ n, sampleAbsRef.p.scheme_len = some n ∧ 0 < n)
  ∧ ((∃ b, IriBuf.tryFromIriRefBuf sampleAbsRef = .ok b)
       ↔ ∃ n, sampleAbsRef.p.scheme_len = some n ∧ 0 < n)
  ∧ ((∃ b, IriBuf.new sampleAbs = .ok b)
       ↔ ∃ n, sampleAbsRef.p.scheme_len = some n ∧ 0 < n)
  ∧ ((∃ b, IriBuf.from_vec sampleAbs = .ok b)
       ↔ ∃ n, sampleAbsRef.p.scheme_len = some n ∧ 0 < n)
  ∧ ((∃ b, IriBuf.from_string sampleAbs = .ok b)
       ↔ ∃ n, sampleAbsRef.p.scheme_len = some n ∧ 0 < n)
  ∧ (∀ r₂ : IriRef, r₂.p = sampleAbsRef.p →
      ((∃ b, IriBuf.tryFromIriRef r₂ = .ok b)
        ↔ ∃ b, IriBuf.tryFromIriRef sampleAbsRef = .ok b)) :=
  iri_refinement sampleAbs sampleAbsRef (by rfl)

/-- C2 (amended): for a parsed reference lacking a scheme, `IriBuf::new`,
`from_vec` and `from_string` fail with `MissingScheme`, while
`TryFrom<IriRef> for IriBuf` fails with `InvalidScheme`. -/
theorem missing_scheme_errors (s : List Char) (r : IriRef)
    (h : IriRef.new s = .ok r) (hs : r.p.scheme_len = none) :
    IriBuf.new s = .error .missingScheme
  ∧ IriBuf.from_vec s = .error (.missingScheme, s)
  ∧ IriBuf.from_string s = .error (.missingScheme, s)
  ∧ IriBuf.tryFromIriRef r = .error .invalidScheme := by
  obtain ⟨hp, hd⟩ := iriRefNew_ok s r h
  have hsome : (r.scheme).isSome = false := by
    rw [scheme_isSome, hs]
    rfl
  have hv : IriRefBuf.from_vec s = .ok r := by
    unfold IriRefBuf.from_vec
    rw [hp]
    cases r
    simp at hd
    subst hd
    rfl
  refine ⟨?_, ?_, ?_, ?_⟩
  · unfold IriBuf.new IriRefBuf.new
    rw [h]
    simp [hsome]
  · unfold IriBuf.from_vec
    rw [hv]
    simp [hsome, IriRefBuf.into_bytes, hd]
  · unfold IriBuf.from_string IriRefBuf.from_string
    rw [hv]
    simp [hsome, IriRefBuf.into_bytes, hd]
  · unfold IriBuf.tryFromIriRef
    simp [hs]

theorem missing_scheme_errors_witness :
    IriBuf.new sampleRel = .error .missingScheme
  ∧ IriBuf.from_vec sampleRel = .error (.missingScheme, sampleRel)
  ∧ IriBuf.from_string sampleRel = .error (.missingScheme, sampleRel)
  ∧ IriBuf.tryFromIriRef sampleRelRef = .error .invalidScheme :=
  missing_scheme_errors sampleRel sampleRelRef (by rfl) rfl

/-- C2 (counterexample): the input `/a` parses as a schemeless reference, and
`TryFrom<IriRef> for IriBuf` on it fails with `InvalidScheme`, not
`MissingScheme` — refuting the claim that every listed operation returns
`MissingScheme`. -/
theorem missing_scheme_claim_cex :
    IriRef.new sampleRel = .ok sampleRelRef
  ∧ sampleRelRef.p.scheme_len = none
  ∧ IriBuf.tryFromIriRef sampleRelRef = .error .invalidScheme
  ∧ ¬ IriBuf.tryFromIriRef sampleRelRef = .error .missingScheme := by
  refine ⟨by rfl, rfl, by rfl, ?_⟩
  intro hh
  rw [show IriBuf.tryFromIriRef sampleRelRef = .error .invalidScheme from rfl]
    at hh
  simp at hh

theorem iri_scheme_isSome (base : Iri) : (base.toRef.scheme).isSome = true := by
  rw [scheme_isSome]
  exact base.has_scheme

theorem buildRef_trySome (sch : Option (List Char)) (auth : Option Authority)
    (pth : List Char) (q f : Option (List Char)) (hs : sch.isSome = true) :
    ((IriBuf.tryFromIriRefBuf (buildRef sch auth pth q f)).toOption).isSome
      = true := by
  obtain ⟨x, hx⟩ := Option.isSome_iff_exists.mp hs
  subst hx
  rfl

/-- C10: `IriRef::resolved` never panics — the buffer produced by the resolve
step always carries a scheme (inherited from the base, or kept from the
reference), so the final `try_into().unwrap()` always succeeds. -/
theorem resolved_never_panics (r : IriRef) (base : Iri) :
    (IriRef.resolved r base).isSome = true := by
  unfold IriRef.resolved IriRefBuf.resolve
  by_cases h : (r.p.scheme_len).isSome
  · rw [if_pos h]
    unfold IriBuf.tryFromIriRefBuf
    rw [if_pos h]
    rfl
  · rw [if_neg h]
    obtain ⟨sc, hsc⟩ :=
      Option.isSome_iff_exists.mp (iri_scheme_isSome base)
    have hs2 : (((base.toRef.scheme).map Scheme.data)).isSome = true := by
      rw [hsc]
      rfl
    split
    · exact buildRef_trySome _ _ _ _ _ hs2
    · by_cases hp0 : r.p.path_len = 0
      · rw [if_pos hp0]
        exact buildRef_trySome _ _ _ _ _ hs2
      · rw [if_neg hp0]
        by_cases hsl : r.path.data.head? = some '/'
        · rw [if_pos hsl]
          exact buildRef_trySome _ _ _ _ _ hs2
        · rw [if_neg hsl]
          exact buildRef_trySome _ _ _ _ _ hs2

theorem optBeq_refl_of (beq : α → α → Bool) (hrefl : ∀ a, beq a a = true) :
    ∀ o : Option α, optBeq beq o o = true := by
  intro o
  cases o
  · rfl
  · simp only [optBeq]
    apply hrefl

theorem scheme_beq_refl (a : Scheme) : Scheme.beq a a = true := by
  simp [Scheme.beq]

theorem authority_beq_refl (a : Authority) : Authority.beq a a = true := by
  simp [Authority.beq, optBeq_refl_of BEq.beq (fun l : List Char => by simp)]

theorem path_beq_refl (a : Path) : Path.beq a a = true := by
  simp [Path.beq]

theorem query_beq_refl (a : Query) : Query.beq a a = true := by
  simp [Query.beq]

theorem fragment_beq_refl (a : Fragment) : Fragment.beq a a = true := by
  simp [Fragment.beq]

theorem iriRef_beq_refl (x : IriRef) : IriRef.beq x x = true := by
  simp [IriRef.beq, optBeq_refl_of Scheme.beq scheme_beq_refl,
    optBeq_refl_of Fragment.beq fragment_beq_refl,
    optBeq_refl_of Authority.beq authority_beq_refl,
    optBeq_refl_of Query.beq query_beq_refl, path_beq_refl]

/-- C4: resolving a reference that carries its own scheme against any base
returns it unchanged as an owned copy — equal to the reference under the
defined component-wise equality. -/
theorem resolve_identity (r : IriRef) (base : Iri)
    (hs : (r.p.scheme_len).isSome = true) :
    ∃ b, IriRef.resolved r base = some b
      ∧ IriRef.beq (IriBuf.as_iri_ref b) r = true := by
  refine ⟨⟨r⟩, ?_, iriRef_beq_refl r⟩
  unfold IriRef.resolved IriRefBuf.resolve
  rw [if_pos hs]
  unfold IriBuf.tryFromIriRefBuf
  rw [if_pos hs]
  rfl

theorem resolve_identity_witness :
    ∃ b, IriRef.resolved sampleAbsRef sampleIri = some b
      ∧ IriRef.beq (IriBuf.as_iri_ref b) sampleAbsRef = true :=
  resolve_identity sampleAbsRef sampleIri rfl

theorem iriBuf_new_scheme (s : List Char) (b : IriBuf)
    (h : IriBuf.new s = .ok b) : (b.toRefBuf.p.scheme_len).isSome = true := by
  unfold IriBuf.new at h
  split at h
  · rename_i iri_ref heq
    split at h
    · rename_i hsch
      rw [Except.ok.injEq] at h
      subst h
      rw [← scheme_isSome]
      exact hsch
    · exact absurd h (by simp)
  · exact absurd h (by simp)

theorem iriBuf_from_vec_scheme (s : List Char) (b : IriBuf)
    (h : IriBuf.from_vec s = .ok b) :
    (b.toRefBuf.p.scheme_len).isSome = true := by
  unfold IriBuf.from_vec at h
  split at h
  · rename_i iri_ref heq
    split at h
    · rename_i hsch
      rw [Except.ok.injEq] at h
      subst h
      rw [← scheme_isSome]
      exact hsch
    · exact absurd h (by simp)
  · exact absurd h (by simp)

theorem iriBuf_from_string_scheme (s : List Char) (b : IriBuf)
    (h : IriBuf.from_string s = .ok b) :
    (b.toRefBuf.p.scheme_len).isSome = true := by
  unfold IriBuf.from_string at h
  split at h
  · rename_i iri_ref heq
    split at h
    · rename_i hsch
      rw [Except.ok.injEq] at h
      subst h
      rw [← scheme_isSome]
      exact hsch
    · exact absurd h (by simp)
  · exact absurd h (by simp)

theorem tryFromIriRef_scheme (r : IriRef) (b : IriBuf)
    (h : IriBuf.tryFromIriRef r = .ok b) :
    (b.toRefBuf.p.scheme_len).isSome = true := by
  unfold IriBuf.tryFromIriRef at h
  split at h
  · rename_i hsch
    rw [Except.ok.injEq] at h
    subst h
    exact hsch
  · exact absurd h (by simp)

theorem tryFromIriRefBuf_scheme (r : IriRefBuf) (b : IriBuf)
    (h : IriBuf.tryFromIriRefBuf r = .ok b) :
    (b.toRefBuf.p.scheme_len).isSome = true := by
  unfold IriBuf.tryFromIriRefBuf at h
  split at h
  · rename_i hsch
    rw [Except.ok.injEq] at h
    subst h
    exact hsch
  · exact absurd h (by simp)

/-- C9: scheme presence is an invariant of `IriBuf`: every value produced by a
checked public constructor has a present scheme, every setter preserves it
(`set_scheme` takes a mandatory scheme), so the unwrap inside
`IriBuf::scheme()` is unreachable — the underlying optional accessor is
always `some`. -/
theorem scheme_invariant (b : IriBuf) (h : ReachableIriBuf b) :
    (IriBuf.schemeOpt b).isSome = true := by
  unfold IriBuf.schemeOpt
  rw [scheme_isSome]
  induction h with
  | of_new s b hb => exact iriBuf_new_scheme s b hb
  | of_from_vec s b hb => exact iriBuf_from_vec_scheme s b hb
  | of_from_string s b hb => exact iriBuf_from_string_scheme s b hb
  | of_from_scheme sc => rfl
  | of_try_from_ref r b hb => exact tryFromIriRef_scheme r b hb
  | of_try_from_buf r b hb => exact tryFromIriRefBuf_scheme r b hb
  | of_set_scheme b s _ _ => rfl
  | of_set_authority b a _ ih => exact ih
  | of_set_path b pth _ ih => exact ih
  | of_set_query b q _ ih => exact ih
  | of_set_fragment b f _ ih => exact ih

theorem scheme_invariant_witness :
    (IriBuf.schemeOpt (IriBuf.from_scheme ⟨'x' :: []⟩)).isSome = true :=
  scheme_invariant (IriBuf.from_scheme ⟨'x' :: []⟩)
    (ReachableIriBuf.of_from_scheme ⟨'x' :: []⟩)

/-! ### The comparator laws behind the `Ord`/`PartialEq` implementations -/

theorem CmpLaws.cmp_refl {cmp : α → α → Ordering} (h : CmpLaws cmp) (a : α) :
    cmp a a = .eq := by
  have hs := h.swap_eq a a
  cases hc : cmp a a
  · rw [hc] at hs
    exact absurd hs (by decide)
  · rfl
  · rw [hc] at hs
    exact absurd hs (by decide)

theorem CmpLaws.eq_symm {cmp : α → α → Ordering} (h : CmpLaws cmp) {a b : α}
    (hab : cmp a b = .eq) : cmp b a = .eq := by
  rw [← h.swap_eq a b, hab]
  rfl

theorem CmpLaws.eq_right {cmp : α → α → Ordering} (h : CmpLaws cmp) {a b c : α}
    (hbc : cmp b c = .eq) : cmp a b = cmp a c := by
  have h1 : cmp c a = cmp b a := h.eq_left c b a (h.eq_symm hbc)
  rw [← h.swap_eq b a, ← h.swap_eq c a, h1]

theorem CmpLaws.gt_iff {cmp : α → α → Ordering} (h : CmpLaws cmp) {a b : α} :
    cmp a b = .gt ↔ cmp b a = .lt := by
  rw [← h.swap_eq b a]
  cases hc : cmp b a <;> decide

theorem cmpLaws_then {f g : α → α → Ordering} (hf : CmpLaws f)
    (hg : CmpLaws g) : CmpLaws (fun a b => (f a b).then (g a b)) := by
  refine ⟨?_, ?_, ?_⟩
  · intro a b
    show ((f a b).then (g a b)).swap = (f b a).then (g b a)
    rw [Ordering.swap_then, hf.swap_eq, hg.swap_eq]
  · intro a b c h1 h2
    show (f a c).then (g a c) = .lt
    rw [Ordering.then_eq_lt] at h1 h2 ⊢
    rcases h1 with hf1 | ⟨hf1, hg1⟩ <;> rcases h2 with hf2 | ⟨hf2, hg2⟩
    · exact Or.inl (hf.lt_trans _ _ _ hf1 hf2)
    · exact Or.inl (by rw [← hf.eq_right hf2]; exact hf1)
    · exact Or.inl (by rw [hf.eq_left _ _ _ hf1]; exact hf2)
    · exact Or.inr ⟨by rw [hf.eq_left _ _ _ hf1]; exact hf2,
        hg.lt_trans _ _ _ hg1 hg2⟩
  · intro a b c h1
    show (f a c).then (g a c) = (f b c).then (g b c)
    rw [Ordering.then_eq_eq] at h1
    rw [hf.eq_left _ _ _ h1.1, hg.eq_left _ _ _ h1.2]

theorem cmpLaws_map {cmp : β → β → Ordering} (h : CmpLaws cmp) (k : α → β) :
    CmpLaws (fun a b => cmp (k a) (k b)) := by
  refine ⟨?_, ?_, ?_⟩
  · intro a b
    exact h.swap_eq _ _
  · intro a b c h1 h2
    exact h.lt_trans _ _ _ h1 h2
  · intro a b c h1
    exact h.eq_left _ _ _ h1

theorem cmpNat_eq_lt (a b : Nat) : cmpNat a b = .lt ↔ a < b := by
  unfold cmpNat
  split
  · rename_i h
    simp [h]
  · rename_i h
    split
    · exact ⟨fun hh => absurd hh (by decide), fun hh => absurd hh h⟩
    · exact ⟨fun hh => absurd hh (by decide), fun hh => absurd hh h⟩

theorem cmpNat_eq_eq (a b : Nat) : cmpNat a b = .eq ↔ a = b := by
  unfold cmpNat
  split
  · rename_i h
    exact ⟨fun hh => absurd hh (by decide), fun hh => absurd h (by omega)⟩
  · rename_i h
    split
    · rename_i h2
      exact ⟨fun hh => absurd hh (by decide), fun hh => absurd h2 (by omega)⟩
    · rename_i h2
      exact ⟨fun _ => by omega, fun _ => rfl⟩

theorem cmpNat_eq_gt (a b : Nat) : cmpNat a b = .gt ↔ b < a := by
  unfold cmpNat
  split
  · rename_i h
    exact ⟨fun hh => absurd hh (by decide), fun hh => absurd hh (by omega)⟩
  · rename_i h
    split
    · rename_i h2
      simp [h2]
    · rename_i h2
      exact ⟨fun hh => absurd hh (by decide), fun hh => absurd hh h2⟩

theorem cmpNat_laws : CmpLaws cmpNat := by
  refine ⟨?_, ?_, ?_⟩
  · intro a b
    cases hc : cmpNat a b
    · rw [cmpNat_eq_lt] at hc
      rw [show cmpNat b a = .gt from (cmpNat_eq_gt b a).mpr hc]
      rfl
    · rw [cmpNat_eq_eq] at hc
      subst hc
      rw [show cmpNat a a = .eq from (cmpNat_eq_eq a a).mpr rfl]
      rfl
    · rw [cmpNat_eq_gt] at hc
      rw [show cmpNat b a = .lt from (cmpNat_eq_lt b a).mpr hc]
      rfl
  · intro a b c h1 h2
    rw [cmpNat_eq_lt] at h1 h2 ⊢
    omega
  · intro a b c h1
    rw [cmpNat_eq_eq] at h1
    subst h1
    rfl

theorem cmpChar_laws : CmpLaws cmpChar :=
  cmpLaws_map cmpNat_laws Char.toNat

theorem cmpChar_eq_iff (a b : Char) : cmpChar a b = .eq ↔ a = b := by
  rw [show cmpChar a b = cmpNat a.toNat b.toNat from rfl, cmpNat_eq_eq]
  exact ⟨fun h => Char.eq_of_val_eq (UInt32.ext h), fun h => by rw [h]⟩

theorem cmpList_laws {cmp : α → α → Ordering} (h : CmpLaws cmp) :
    CmpLaws (cmpList cmp) := by
  refine ⟨?_, ?_, ?_⟩
  · intro a
    induction a with
    | nil =>
      intro b
      cases b <;> rfl
    | cons x xs ih =>
      intro b
      cases b with
      | nil => rfl
      | cons y ys =>
        show ((cmp x y).then (cmpList cmp xs ys)).swap
          = (cmp y x).then (cmpList cmp ys xs)
        rw [Ordering.swap_then, h.swap_eq, ih]
  · intro a
    induction a with
    | nil =>
      intro b c h1 h2
      cases b with
      | nil => exact absurd h1 (by simp [cmpList])
      | cons y ys =>
        cases c with
        | nil => exact absurd h2 (by simp [cmpList])
        | cons z zs => rfl
    | cons x xs ih =>
      intro b c h1 h2
      cases b with
      | nil => exact absurd h1 (by simp [cmpList])
      | cons y ys =>
        cases c with
        | nil => exact absurd h2 (by simp [cmpList])
        | cons z zs =>
          simp only [cmpList] at h1 h2 ⊢
          rw [Ordering.then_eq_lt] at h1 h2 ⊢
          rcases h1 with hf1 | ⟨hf1, hg1⟩ <;> rcases h2 with hf2 | ⟨hf2, hg2⟩
          · exact Or.inl (h.lt_trans _ _ _ hf1 hf2)
          · exact Or.inl (by rw [← h.eq_right hf2]; exact hf1)
          · exact Or.inl (by rw [h.eq_left _ _ _ hf1]; exact hf2)
          · exact Or.inr ⟨by rw [h.eq_left _ _ _ hf1]; exact hf2,
              ih _ _ hg1 hg2⟩
  · intro a
    induction a with
    | nil =>
      intro b c h1
      cases b with
      | nil => rfl
      | cons y ys => exact absurd h1 (by simp [cmpList])
    | cons x xs ih =>
      intro b c h1
      cases b with
      | nil => exact absurd h1 (by simp [cmpList])
      | cons y ys =>
        simp only [cmpList] at h1
        rw [Ordering.then_eq_eq] at h1
        cases c with
        | nil => rfl
        | cons z zs =>
          simp only [cmpList]
          rw [h.eq_left _ _ _ h1.1, ih _ _ h1.2]

theorem cmpOpt_laws {cmp : α → α → Ordering} (h : CmpLaws cmp) :
    CmpLaws (cmpOpt cmp) := by
  refine ⟨?_, ?_, ?_⟩
  · intro a b
    cases a <;> cases b <;> first | rfl | exact h.swap_eq _ _
  · intro a b c h1 h2
    cases a <;> cases b <;> cases c <;>
      simp only [cmpOpt] at h1 h2 ⊢ <;>
      first
      | rfl
      | exact absurd h1 (by decide)
      | exact absurd h2 (by decide)
      | exact h.lt_trans _ _ _ h1 h2
  · intro a b c h1
    cases a <;> cases b <;> cases c <;>
      simp only [cmpOpt] at h1 ⊢ <;>
      first
      | rfl
      | exact absurd h1 (by decide)
      | exact h.eq_left _ _ _ h1

theorem cmpList_eq_iff {cmp : α → α → Ordering}
    (hiff : ∀ a b, cmp a b = .eq ↔ a = b) :
    ∀ l₁ l₂ : List α, cmpList cmp l₁ l₂ = .eq ↔ l₁ = l₂ := by
  intro l₁
  induction l₁ with
  | nil =>
    intro l₂
    cases l₂ <;> simp [cmpList]
  | cons x xs ih =>
    intro l₂
    cases l₂ with
    | nil => simp [cmpList]
    | cons y ys =>
      simp only [cmpList]
      rw [Ordering.then_eq_eq, hiff, ih]
      simp

theorem listBeq_iff (l₁ l₂ : List Char) :
    (l₁ == l₂) = true ↔ cmpList cmpChar l₁ l₂ = .eq := by
  rw [cmpList_eq_iff cmpChar_eq_iff]
  simp

theorem optBeq_iff {beq : α → α → Bool} {cmp : α → α → Ordering}
    (hiff : ∀ a b, beq a b = true ↔ cmp a b = .eq) :
    ∀ o₁ o₂ : Option α, optBeq beq o₁ o₂ = true ↔ cmpOpt cmp o₁ o₂ = .eq := by
  intro o₁ o₂
  cases o₁ <;> cases o₂ <;> simp only [optBeq, cmpOpt] <;>
    first | simp | exact hiff _ _

theorem scheme_beq_iff (a b : Scheme) :
    Scheme.beq a b = true ↔ Scheme.cmp a b = .eq := by
  unfold Scheme.beq Scheme.cmp
  exact listBeq_iff _ _

theorem path_beq_iff (a b : Path) :
    Path.beq a b = true ↔ Path.cmp a b = .eq := by
  unfold Path.beq Path.cmp
  exact listBeq_iff _ _

theorem query_beq_iff (a b : Query) :
    Query.beq a b = true ↔ Query.cmp a b = .eq := by
  unfold Query.beq Query.cmp
  exact listBeq_iff _ _

theorem fragment_beq_iff (a b : Fragment) :
    Fragment.beq a b = true ↔ Fragment.cmp a b = .eq := by
  unfold Fragment.beq Fragment.cmp
  exact listBeq_iff _ _

theorem authority_beq_iff (a b : Authority) :
    Authority.beq a b = true ↔ Authority.cmp a b = .eq := by
  unfold Authority.beq Authority.cmp
  rw [Bool.and_eq_true, Bool.and_eq_true, Ordering.then_eq_eq,
    Ordering.then_eq_eq,
    optBeq_iff (fun x y => listBeq_iff x y) a.userinfo b.userinfo,
    listBeq_iff (lowerList a.host) (lowerList b.host),
    optBeq_iff (fun x y => listBeq_iff x y) a.port b.port]
  exact and_assoc

theorem eq_then (o : Ordering) : Ordering.eq.then o = o :=
  rfl

theorem ne_then {o : Ordering} (h : ¬ o = .eq) (o₂ : Ordering) :
    o.then o₂ = o := by
  cases o
  · rfl
  · exact absurd rfl h
  · rfl

theorem iriRef_cmp_then (a b : IriRef) :
    IriRef.cmp a b =
      (cmpOpt Scheme.cmp a.scheme b.scheme).then
        ((cmpOpt Authority.cmp a.authority b.authority).then
          ((Path.cmp a.path b.path).then
            ((cmpOpt Query.cmp a.query b.query).then
              (cmpOpt Fragment.cmp a.fragment b.fragment)))) := by
  unfold IriRef.cmp
  by_cases h1 : optBeq Scheme.beq a.scheme b.scheme = true
  · rw [if_pos h1, (optBeq_iff scheme_beq_iff _ _).mp h1, eq_then]
    by_cases h2 : optBeq Authority.beq a.authority b.authority = true
    · rw [if_pos h2, (optBeq_iff authority_beq_iff _ _).mp h2, eq_then]
      by_cases h3 : Path.beq a.path b.path = true
      · rw [if_pos h3, (path_beq_iff _ _).mp h3, eq_then]
        by_cases h4 : optBeq Query.beq a.query b.query = true
        · rw [if_pos h4, (optBeq_iff query_beq_iff _ _).mp h4, eq_then]
        · rw [if_neg h4,
            ne_then (fun hh => h4 ((optBeq_iff query_beq_iff _ _).mpr hh))]
      · rw [if_neg h3, ne_then (fun hh => h3 ((path_beq_iff _ _).mpr hh))]
    · rw [if_neg h2,
        ne_then (fun hh => h2 ((optBeq_iff authority_beq_iff _ _).mpr hh))]
  · rw [if_neg h1,
      ne_then (fun hh => h1 ((optBeq_iff scheme_beq_iff _ _).mpr hh))]

theorem iriRef_beq_iff (a b : IriRef) :
    IriRef.beq a b = true ↔ IriRef.cmp a b = .eq := by
  rw [iriRef_cmp_then]
  unfold IriRef.beq
  rw [Bool.and_eq_true, Bool.and_eq_true, Bool.and_eq_true, Bool.and_eq_true,
    Ordering.then_eq_eq, Ordering.then_eq_eq, Ordering.then_eq_eq,
    Ordering.then_eq_eq,
    optBeq_iff scheme_beq_iff, optBeq_iff fragment_beq_iff,
    optBeq_iff authority_beq_iff, path_beq_iff, optBeq_iff query_beq_iff]
  tauto

theorem iriRef_cmp_laws : CmpLaws IriRef.cmp := by
  have hS : CmpLaws Scheme.cmp :=
    cmpLaws_map (cmpList_laws cmpChar_laws) (fun s : Scheme => lowerList s.data)
  have hA : CmpLaws Authority.cmp := by
    have h1 : CmpLaws
        (fun x y : Authority => cmpOpt (cmpList cmpChar) x.userinfo y.userinfo) :=
      cmpLaws_map (cmpOpt_laws (cmpList_laws cmpChar_laws)) Authority.userinfo
    have h2 : CmpLaws
        (fun x y : Authority =>
          cmpList cmpChar (lowerList x.host) (lowerList y.host)) :=
      cmpLaws_map (cmpList_laws cmpChar_laws) (fun x => lowerList x.host)
    have h3 : CmpLaws
        (fun x y : Authority => cmpOpt (cmpList cmpChar) x.port y.port) :=
      cmpLaws_map (cmpOpt_laws (cmpList_laws cmpChar_laws)) Authority.port
    exact cmpLaws_then h1 (cmpLaws_then h2 h3)
  have hP : CmpLaws Path.cmp :=
    cmpLaws_map (cmpList_laws cmpChar_laws) Path.data
  have hQ : CmpLaws Query.cmp :=
    cmpLaws_map (cmpList_laws cmpChar_laws) Query.data
  have hF : CmpLaws Fragment.cmp :=
    cmpLaws_map (cmpList_laws cmpChar_laws) Fragment.data
  have base : CmpLaws (fun a b : IriRef =>
      (cmpOpt Scheme.cmp a.scheme b.scheme).then
        ((cmpOpt Authority.cmp a.authority b.authority).then
          ((Path.cmp a.path b.path).then
            ((cmpOpt Query.cmp a.query b.query).then
              (cmpOpt Fragment.cmp a.fragment b.fragment))))) :=
    cmpLaws_then (cmpLaws_map (cmpOpt_laws hS) IriRef.scheme)
      (cmpLaws_then (cmpLaws_map (cmpOpt_laws hA) IriRef.authority)
        (cmpLaws_then (cmpLaws_map hP IriRef.path)
          (cmpLaws_then (cmpLaws_map (cmpOpt_laws hQ) IriRef.query)
            (cmpLaws_map (cmpOpt_laws hF) IriRef.fragment))))
  refine ⟨?_, ?_, ?_⟩
  · intro a b
    rw [iriRef_cmp_then a b, iriRef_cmp_then b a]
    exact base.swap_eq a b
  · intro a b c h1 h2
    rw [iriRef_cmp_then] at h1 h2
    rw [iriRef_cmp_then]
    exact base.lt_trans a b c h1 h2
  · intro a b c h1
    rw [iriRef_cmp_then] at h1
    rw [iriRef_cmp_then a c, iriRef_cmp_then b c]
    exact base.eq_left a b c h1

/-- C5: the `IriRef` ordering is component-wise (scheme, then authority, then
path, then query, then fragment, with `none` before `some` and
case-insensitive scheme and host), and it is reflexive, antisymmetric,
transitive, agrees with the defined component-wise equality, and is not a raw
comparison of the whole buffer (two references with different buffers compare
equal). -/
theorem ordering_total_order :
    (∀ x : IriRef, IriRef.cmp x x = .eq)
  ∧ (∀ x y : IriRef, (IriRef.cmp x y).swap = IriRef.cmp y x)
  ∧ (∀ x y : IriRef,
      ¬ IriRef.cmp x y = .gt → ¬ IriRef.cmp y x = .gt →
        IriRef.beq x y = true)
  ∧ (∀ x y z : IriRef,
      IriRef.cmp x y = .lt → IriRef.cmp y z = .lt → IriRef.cmp x z = .lt)
  ∧ (∀ x y : IriRef, IriRef.cmp x y = .eq ↔ IriRef.beq x y = true)
  ∧ (∀ q : Query, cmpOpt Query.cmp none (some q) = .lt)
  ∧ (∃ x y : IriRef, ¬ x.data = y.data ∧ IriRef.beq x y = true) := by
  have laws := iriRef_cmp_laws
  refine ⟨fun x => laws.cmp_refl x, fun x y => laws.swap_eq x y, ?_,
    fun x y z => laws.lt_trans x y z,
    fun x y => (iriRef_beq_iff x y).symm, fun q => rfl, ?_⟩
  · intro x y h1 h2
    rw [iriRef_beq_iff]
    have h3 : ¬ IriRef.cmp x y = .lt := fun hl => h2 (laws.gt_iff.mpr hl)
    cases hc : IriRef.cmp x y
    · exact absurd hc h3
    · rfl
    · exact absurd hc h1
  · refine ⟨⟨⟨some 1, none, 0, none, none⟩, 'A' :: ':' :: []⟩, sampleAbsRef,
      ?_, ?_⟩
    · decide
    · decide

theorem ordering_total_order_witness :
    IriRef.beq sampleAbsRef sampleAbsRef = true :=
  ordering_total_order.2.2.1 sampleAbsRef sampleAbsRef (by decide) (by decide)

end Iref
